import Mathlib

/-!
# Verification of `pkg/image_downloader.py` (markdown_articles_tool)

Shallow embedding of `ImageDownloader.download_images` and its helpers
(`_get_unique_imge_filename`, `_write_image`) from
`src/pkg/image_downloader.py`, together with theorems settling the claims
about the acquisition engine.

Modelling conventions:
* Byte payloads are `List Nat`; digests are opaque values produced by an
  environment-supplied hash function.
* The collaborators that live outside `src/` (`is_url`,
  `download_from_url`, `get_filename_from_url` from `pkg/www_tools`, the
  `hashlib` digests, `strftime`, and the filesystem probe) are oracles in
  an `Env` record.  `download_from_url`/`get_filename_from_url` together
  are `Env.fetch : String → Except Unit (Content × String)`: an
  exception, or the payload plus the server-suggested filename.
  `strftime("%Y%m%d_%H%M%S")` is `Env.clock` applied to the number of
  `strftime` calls made so far in the run (the `tick` counter).
* The filesystem under `images_dir` is an association list from filename
  to content.  `Path(images_dir.name, f) == Path(images_dir.name, g)`
  is modelled as string equality `f = g`; filename strings are taken
  verbatim (no `Path` normalisation).
* Observational instrumentation that the Python code only prints
  (which URLs were classified, which were fetched, which writes happened,
  whether a timestamp-disambiguated name was fresh on disk, how many
  dedup hits occurred) is kept in log fields of the state; no control
  flow reads the logs.
-/

namespace ImageDownloader

/-- Byte payload of a fetched image (`img_response.content`). -/
abbrev Content := List Nat

/-- Opaque digest value (`hashlib.sha256(...).digest()`). -/
abbrev Digest := List Nat

/-- Exceptions that can escape `download_images`. -/
inductive Err where
  /-- the `assert img_url not in replacement_mapping.keys()` at the top of
  the loop fires (line 45). -/
  | assertionError
  /-- `img_url.rsplit('/', 1)[1]` on a string with no `'/'` (line 52). -/
  | indexError
  /-- an exception raised by `download_from_url` and re-raised (line 81). -/
  | fetchError
deriving Repr, DecidableEq

/-- External collaborators of the engine, modelled as oracles. -/
structure Env where
  /-- `pkg.www_tools.is_url` (not under `src/`): URL-validity classifier. -/
  isUrl : String → Bool
  /-- `download_from_url` + `get_filename_from_url` (not under `src/`):
  either raises, or returns the payload and the server-suggested
  filename. -/
  fetch : String → Except Unit (Content × String)
  /-- `hashlib.sha256(content).digest()`. -/
  sha : Content → Digest
  /-- `hashlib.md5(url.encode()).hexdigest()`. -/
  md5hex : String → String
  /-- `strftime("%Y%m%d_%H%M%S")`, indexed by how many `strftime` calls
  the run has already made. -/
  clock : Nat → String
  /-- whether `Path.is_file()` raises `OSError` for this candidate
  filename in the skip-on-existing probe (lines 54-61). -/
  osErr : String → Bool

/-- Constructor configuration of `ImageDownloader.__init__`. -/
structure Config where
  /-- `self._images_dir.name` (the document-relative directory name). -/
  dirname : String
  /-- `self._article_base_url` (empty string means "no base URL"). -/
  baseUrl : String
  /-- `self._skip_list` (exact-match strings). -/
  skipList : List String
  /-- `self._skip_all_errors`. -/
  skipAllErrors : Bool
  /-- `self._deduplication`. -/
  deduplication : Bool
  /-- `self._skip_on_existing_filename`. -/
  skipOnExisting : Bool
  /-- `self._overwrite`. -/
  overwrite : Bool

/-- Mutable state of one `download_images` run.  `mapping`, `hashIdx` and
`disk` are what the Python code manipulates; the remaining fields are
observational logs (diagnostics the code prints, plus the write trace). -/
structure St where
  /-- `replacement_mapping`: url → assigned filename, in insertion order
  (the document path is `Path(dirname, filename)`). -/
  mapping : List (String × String)
  /-- `hash_to_path_mapping`: digest → recorded filename. -/
  hashIdx : List (Digest × String)
  /-- files in `images_dir`: filename → content. -/
  disk : List (String × Content)
  /-- number of `strftime` calls made so far. -/
  tick : Nat
  /-- arguments of each `is_url` call, in order. -/
  classifyLog : List String
  /-- arguments of each `download_from_url` call, in order. -/
  fetchLog : List String
  /-- every `_write_image` call: (filename, content). -/
  writeLog : List (String × Content)
  /-- for each timestamp disambiguation (line 100): whether the generated
  filename was absent from the directory at that moment. -/
  tsFreshLog : List Bool
  /-- how many times the deduplication index returned a previously
  recorded filename (lines 88-92). -/
  dedupHits : Nat
deriving Repr, DecidableEq

/-- Initial state of a run over a directory already containing `disk`. -/
def initSt (disk : List (String × Content)) : St :=
  { mapping := [], hashIdx := [], disk := disk, tick := 0,
    classifyLog := [], fetchLog := [], writeLog := [],
    tsFreshLog := [], dedupHits := 0 }

/-! ## Association lists (Python `dict` operations used by the code) -/

/-- Dictionary lookup (`d.get(k)` / `k in d`). -/
def alookup {α β : Type} [DecidableEq α] (k : α) : List (α × β) → Option β
  | [] => none
  | (a, b) :: t => if a = k then some b else alookup k t

/-- Dictionary write `d[k] = v` (replace if present, else append). -/
def aset {α β : Type} [DecidableEq α] (k : α) (v : β) :
    List (α × β) → List (α × β)
  | [] => [(k, v)]
  | (a, b) :: t => if a = k then (k, v) :: t else (a, b) :: aset k v t

/-- `d.setdefault(k, v)`: insert only when the key is absent. -/
def setdefault (k v : String) (m : List (String × String)) : List (String × String) :=
  if (alookup k m).isSome then m else m ++ [(k, v)]

/-! ## Python string/path helpers -/

/-- Split a character list at the LAST occurrence of `c`:
`breakLast c l = some (pre, post)` iff `l = pre ++ [c] ++ post` with
`c ∉ post`; `none` iff `c ∉ l`. -/
def breakLast (c : Char) : List Char → Option (List Char × List Char)
  | [] => none
  | a :: t =>
    match breakLast c t with
    | some (pre, post) => some (a :: pre, post)
    | none => if a = c then some ([], t) else none

/-- `img_url.rsplit('/', 1)[1]`: text after the last `'/'`; raises
`IndexError` (modelled as `none`) when there is no `'/'`. -/
def rsplitLast (s : String) : Option String :=
  match breakLast '/' s.toList with
  | some (_, post) => some (String.mk post)
  | none => none

/-- Final path component of a filename string (what `Path(dirname, f).name`
is, for slash-normal `f`). -/
def lastComponent (l : List Char) : List Char :=
  match breakLast '/' l with
  | some (_, post) => post
  | none => l

/-- `PurePath.stem` of the final component: `name[:i]` for
`i = name.rfind('.')` when `0 < i < len(name) - 1`, else `name`. -/
def stemChars (l : List Char) : List Char :=
  let n := lastComponent l
  match breakLast '.' n with
  | some (pre, post) => if pre = [] ∨ post = [] then n else pre
  | none => n

/-- `PurePath.suffix` of the final component: `name[i:]` for
`i = name.rfind('.')` when `0 < i < len(name) - 1`, else `''`. -/
def suffixChars (l : List Char) : List Char :=
  let n := lastComponent l
  match breakLast '.' n with
  | some (pre, post) => if pre = [] ∨ post = [] then [] else '.' :: post
  | none => []

/-- `Path(dirname, f).stem` as a string operation on the filename. -/
def nameStem (s : String) : String := String.mk (stemChars s.toList)

/-- `Path(dirname, f).suffix` as a string operation on the filename. -/
def nameSuffix (s : String) : String := String.mk (suffixChars s.toList)

/-! ## The engine -/

/-- `ImageDownloader._get_unique_imge_filename` (lines 121-134): rename the
candidate by appending `'_' + md5(img_url).hexdigest()` to the stem exactly
when some already-committed entry uses the same document path for a
different URL. -/
def uniquify (md5 : String → String) (mapping : List (String × String))
    (imgUrl f : String) : String :=
  if mapping.any (fun e => e.2 = f ∧ e.1 ≠ imgUrl) then
    nameStem f ++ "_" ++ md5 imgUrl ++ nameSuffix f
  else f

/-- Lines 96-106: collision-resolve the suggested filename against the
mapping, then against the directory (timestamp fallback, line 100), record
the mapping entry and write the file. -/
def finishSave (env : Env) (cfg : Config) (st : St) (url : String)
    (content : Content) (suggested : String) : Except Err St :=
  let f1 := uniquify env.md5hex st.mapping url suggested
  if (alookup f1 st.disk).isSome ∧ cfg.overwrite = false then
    let ts := env.clock st.tick
    let f2 := nameStem f1 ++ "_" ++ ts ++ nameSuffix f1
    .ok { st with
      tick := st.tick + 1,
      tsFreshLog := st.tsFreshLog ++ [(alookup f2 st.disk).isNone],
      mapping := setdefault url f2 st.mapping,
      disk := aset f2 content st.disk,
      writeLog := st.writeLog ++ [(f2, content)] }
  else
    .ok { st with
      mapping := setdefault url f1 st.mapping,
      disk := aset f1 content st.disk,
      writeLog := st.writeLog ++ [(f1, content)] }

/-- Lines 72-106: fetch the (possibly repaired) URL, apply the
skip-all-errors policy, the deduplication index, and save. -/
def processDownload (env : Env) (cfg : Config) (st : St) (url : String) :
    Except Err St :=
  let st := { st with fetchLog := st.fetchLog ++ [url] }
  match env.fetch url with
  | .error _ =>
    if cfg.skipAllErrors then .ok st else .error .fetchError
  | .ok (content, suggested) =>
    if cfg.deduplication then
      match alookup (env.sha content) st.hashIdx with
      | some existing =>
        .ok { st with mapping := setdefault url existing st.mapping,
                      dedupHits := st.dedupHits + 1 }
      | none =>
        finishSave env cfg
          { st with hashIdx := st.hashIdx ++ [(env.sha content, suggested)] }
          url content suggested
    else
      finishSave env cfg st url content suggested

/-- Lines 63-70: URL-validity classification and base-URL repair.  Note the
code rebinds `img_url` to the repaired string and never re-runs `is_url`
on it. -/
def processFetch (env : Env) (cfg : Config) (st : St) (url : String) :
    Except Err St :=
  let st := { st with classifyLog := st.classifyLog ++ [url] }
  if env.isUrl url then
    processDownload env cfg st url
  else if cfg.baseUrl ≠ "" then
    processDownload env cfg st (cfg.baseUrl ++ "/" ++ url)
  else
    .ok st

/-- Lines 45-106: the body of the `for img_num, img_url in enumerate(...)`
loop for one reference. -/
def processOne (env : Env) (cfg : Config) (st : St) (url : String) :
    Except Err St :=
  if (alookup url st.mapping).isSome then
    .error .assertionError
  else if url ∈ cfg.skipList then
    .ok st
  else if cfg.skipOnExisting then
    match rsplitLast url with
    | none => .error .indexError
    | some pf =>
      if env.osErr pf then
        processFetch env cfg st url
      else if (alookup pf st.disk).isSome then
        .ok { st with mapping := setdefault url pf st.mapping }
      else
        processFetch env cfg st url
  else
    processFetch env cfg st url

/-- The whole `for` loop of `download_images`. -/
def runList (env : Env) (cfg : Config) : List String → St → Except Err St
  | [], st => .ok st
  | r :: t, st =>
    match processOne env cfg st r with
    | .error e => .error e
    | .ok st1 => runList env cfg t st1

/-! ## The returned `OrderedDict` (line 108) -/

/-- Python string comparison `a < b` on character lists: code-point
lexicographic (equal heads are skipped, the first differing pair
decides). -/
def strLtLB : List Char → List Char → Bool
  | [], [] => false
  | [], _ :: _ => true
  | _ :: _, [] => false
  | a :: as, b :: bs => if a = b then strLtLB as bs else decide (a < b)

/-- Python string comparison `a < b`. -/
def strLtB (a b : String) : Bool := strLtLB a.toList b.toList

/-- Python string comparison `a <= b`. -/
def strLeB (a b : String) : Bool := strLtB a b || a == b

/-- Python tuple comparison `a <= b` on `(key, value)` string pairs. -/
def pairLeB (a b : String × String) : Bool :=
  strLtB a.1 b.1 || (a.1 == b.1 && strLeB a.2 b.2)

/-- "`a` comes no later than `b`" in Python's
`sorted(items, reverse=True)`: Python compares the `(key, value)` tuples
lexicographically, strings by code point, and `reverse=True` puts the
larger tuple first. -/
def pairDescBefore (a b : String × String) : Prop :=
  pairLeB b a = true

instance : DecidableRel pairDescBefore := fun a b => by
  unfold pairDescBefore
  exact inferInstance

theorem strLtLB_iff : ∀ l1 l2 : List Char,
    strLtLB l1 l2 = true ↔ List.Lex (· < ·) l1 l2 := by
  intro l1
  induction l1 with
  | nil =>
    intro l2
    cases l2 with
    | nil =>
      simp only [strLtLB]
      constructor
      · intro h; cases h
      · intro h; cases h
    | cons b bs =>
      simp only [strLtLB]
      exact ⟨fun _ => List.Lex.nil, fun _ => trivial⟩
  | cons a as ih =>
    intro l2
    cases l2 with
    | nil =>
      simp only [strLtLB]
      constructor
      · intro h; cases h
      · intro h; cases h
    | cons b bs =>
      simp only [strLtLB]
      by_cases hab : a = b
      · subst hab
        rw [if_pos rfl, ih]
        constructor
        · exact List.Lex.cons
        · intro h
          cases h with
          | cons h => exact h
          | rel h => exact absurd h (lt_irrefl a)
      · rw [if_neg hab]
        simp only [decide_eq_true_eq]
        constructor
        · exact List.Lex.rel
        · intro h
          cases h with
          | cons h => exact absurd rfl hab
          | rel h => exact h

theorem strLtB_iff (a b : String) : strLtB a b = true ↔ a < b := by
  rw [String.lt_iff_toList_lt]
  exact strLtLB_iff _ _

theorem strLeB_iff (a b : String) : strLeB a b = true ↔ a ≤ b := by
  rw [le_iff_lt_or_eq]
  simp [strLeB, strLtB_iff]

theorem pairLeB_iff (a b : String × String) :
    pairLeB a b = true ↔ toLex a ≤ toLex b := by
  rw [Prod.Lex.le_iff]
  simp [pairLeB, strLtB_iff, strLeB_iff]

theorem pairDescBefore_iff (a b : String × String) :
    pairDescBefore a b ↔ toLex b ≤ toLex a := pairLeB_iff b a

instance : IsTotal (String × String) pairDescBefore :=
  ⟨fun a b => by
    rw [pairDescBefore_iff, pairDescBefore_iff]
    exact (le_total (toLex a) (toLex b)).symm⟩

instance : IsTrans (String × String) pairDescBefore :=
  ⟨fun x y z hab hbc => by
    rw [pairDescBefore_iff] at hab hbc ⊢
    exact le_trans hbc hab⟩

/-- `sorted(replacement_mapping.items(), reverse=True)`. -/
def sortDesc (l : List (String × String)) : List (String × String) :=
  List.insertionSort pairDescBefore l

/-- `ImageDownloader.download_images` (lines 34-108): run the loop from the
given initial directory contents and return the sorted mapping. -/
def download_images (env : Env) (cfg : Config)
    (disk : List (String × Content)) (images : List String) :
    Except Err (List (String × String)) :=
  (runList env cfg images (initSt disk)).map (fun s => sortDesc s.mapping)

/-- Final state of a successful run (used to phrase closed theorems about
concrete scenarios; `getD` is never reached when the run is `.ok`). -/
def runOf (env : Env) (cfg : Config) (disk : List (String × Content))
    (images : List String) : St :=
  (runList env cfg images (initSt disk)).toOption.getD (initSt disk)

/-! ## Association-list lemmas -/

theorem alookup_append {α β : Type} [DecidableEq α] (k : α)
    (m l : List (α × β)) :
    alookup k (m ++ l) = ((alookup k m).or (alookup k l)) := by
  induction m with
  | nil => simp [alookup]
  | cons p t ih =>
    obtain ⟨a, b⟩ := p
    by_cases h : a = k <;> simp [alookup, h, ih]

theorem alookup_aset_self {α β : Type} [DecidableEq α] (k : α) (v : β)
    (d : List (α × β)) : alookup k (aset k v d) = some v := by
  induction d with
  | nil => simp [aset, alookup]
  | cons p t ih =>
    obtain ⟨a, b⟩ := p
    by_cases h : a = k <;> simp [aset, alookup, h, ih]

theorem alookup_aset_ne {α β : Type} [DecidableEq α] {j k : α} (v : β)
    (d : List (α × β)) (h : j ≠ k) :
    alookup j (aset k v d) = alookup j d := by
  have hkj : ¬ k = j := fun e => h e.symm
  induction d with
  | nil => simp [aset, alookup, hkj]
  | cons p t ih =>
    obtain ⟨a, b⟩ := p
    by_cases hak : a = k
    · subst hak
      simp [aset, alookup, hkj, ih]
    · simp [aset, alookup, hak, ih]

theorem alookup_isSome_of_mem {α β : Type} [DecidableEq α] {k : α} {v : β}
    {d : List (α × β)} (h : (k, v) ∈ d) : (alookup k d).isSome := by
  induction d with
  | nil => cases h
  | cons p t ih =>
    obtain ⟨a, b⟩ := p
    by_cases hak : a = k
    · simp [alookup, hak]
    · rcases List.mem_cons.mp h with h1 | h1
      · cases h1; simp at hak
      · simpa [alookup, hak] using ih h1

theorem alookup_eq_none_iff {α β : Type} [DecidableEq α] (k : α)
    (m : List (α × β)) :
    alookup k m = none ↔ k ∉ m.map Prod.fst := by
  induction m with
  | nil => simp [alookup]
  | cons p t ih =>
    obtain ⟨a, b⟩ := p
    by_cases h : a = k
    · subst h; simp [alookup]
    · simp [alookup, h, ih, Ne.symm h]

theorem setdefault_eq_of_isSome {k v : String}
    {m : List (String × String)} (h : (alookup k m).isSome) :
    setdefault k v m = m := by
  simp [setdefault, h]

theorem setdefault_eq_of_none {k v : String} {m : List (String × String)}
    (h : alookup k m = none) :
    setdefault k v m = m ++ [(k, v)] := by
  simp [setdefault, h]

theorem alookup_setdefault_isSome {u k v : String}
    {m : List (String × String)} (h : (alookup u m).isSome) :
    (alookup u (setdefault k v m)).isSome := by
  unfold setdefault
  split
  · exact h
  · rw [alookup_append]
    obtain ⟨w, hw⟩ := Option.isSome_iff_exists.mp h
    simp [hw]

theorem alookup_setdefault_cases {u k v : String}
    {m : List (String × String)}
    (h : (alookup u (setdefault k v m)).isSome) :
    (alookup u m).isSome ∨ u = k := by
  unfold setdefault at h
  split at h
  · exact .inl h
  · rw [alookup_append] at h
    cases hm : alookup u m with
    | some w => exact .inl (by simp [hm])
    | none =>
      rw [hm] at h
      simp only [Option.none_or, alookup] at h
      right
      split at h
      · rename_i heq; exact heq.symm
      · simp at h

theorem mem_setdefault {p : String × String} {k v : String}
    {m : List (String × String)} (h : p ∈ setdefault k v m) :
    p ∈ m ∨ p = (k, v) := by
  unfold setdefault at h
  split at h
  · exact .inl h
  · rcases List.mem_append.mp h with h1 | h1
    · exact .inl h1
    · exact .inr (List.mem_singleton.mp h1)

theorem map_fst_setdefault_nodup {k v : String}
    {m : List (String × String)} (h : (m.map Prod.fst).Nodup) :
    ((setdefault k v m).map Prod.fst).Nodup := by
  unfold setdefault
  split
  · exact h
  · rename_i hnone
    rw [Option.not_isSome_iff_eq_none] at hnone
    have hk : k ∉ m.map Prod.fst := (alookup_eq_none_iff k m).mp hnone
    rw [List.map_append]
    refine List.Nodup.append h (by simp) ?_
    intro a ha hmem
    simp only [List.map_cons, List.map_nil, List.mem_singleton] at hmem
    subst hmem
    exact hk ha

/-! ## Per-stage structural lemmas -/

theorem upd_isUrl (e : Env) (c : Nat → String) :
    ({ e with clock := c } : Env).isUrl = e.isUrl := rfl

theorem upd_fetch (e : Env) (c : Nat → String) :
    ({ e with clock := c } : Env).fetch = e.fetch := rfl

theorem upd_sha (e : Env) (c : Nat → String) :
    ({ e with clock := c } : Env).sha = e.sha := rfl

theorem upd_md5hex (e : Env) (c : Nat → String) :
    ({ e with clock := c } : Env).md5hex = e.md5hex := rfl

theorem upd_osErr (e : Env) (c : Nat → String) :
    ({ e with clock := c } : Env).osErr = e.osErr := rfl

/-- How one loop iteration can change the mapping: not at all, or one
`setdefault` whose key is the reference or its base-URL-repaired form. -/
theorem finishSave_mapShape {env cfg st url content suggested st1}
    (h : finishSave env cfg st url content suggested = .ok st1) :
    ∃ f, st1.mapping = setdefault url f st.mapping := by
  simp only [finishSave] at h
  split at h <;> (injection h with h; subst h; exact ⟨_, rfl⟩)

theorem processDownload_mapShape {env cfg st url st1}
    (h : processDownload env cfg st url = .ok st1) :
    st1.mapping = st.mapping ∨
      ∃ f, st1.mapping = setdefault url f st.mapping := by
  simp only [processDownload] at h
  split at h
  · split at h
    · injection h with h; subst h; exact .inl rfl
    · cases h
  · split at h
    · split at h
      · injection h with h; subst h; exact .inr ⟨_, rfl⟩
      · obtain ⟨f, hf⟩ := finishSave_mapShape h
        exact .inr ⟨f, hf⟩
    · obtain ⟨f, hf⟩ := finishSave_mapShape h
      exact .inr ⟨f, hf⟩

theorem processFetch_mapShape {env cfg st url st1}
    (h : processFetch env cfg st url = .ok st1) :
    st1.mapping = st.mapping ∨
      ∃ k f, (k = url ∨ k = cfg.baseUrl ++ "/" ++ url) ∧
        st1.mapping = setdefault k f st.mapping := by
  simp only [processFetch] at h
  split at h
  · obtain h1 | ⟨f, h1⟩ := processDownload_mapShape h
    · exact .inl h1
    · exact .inr ⟨url, f, .inl rfl, h1⟩
  · split at h
    · obtain h1 | ⟨f, h1⟩ := processDownload_mapShape h
      · exact .inl h1
      · exact .inr ⟨_, f, .inr rfl, h1⟩
    · injection h with h; subst h; exact .inl rfl

theorem processOne_mapShape {env cfg st url st1}
    (h : processOne env cfg st url = .ok st1) :
    st1.mapping = st.mapping ∨
      ∃ k f, (k = url ∨ k = cfg.baseUrl ++ "/" ++ url) ∧
        st1.mapping = setdefault k f st.mapping := by
  simp only [processOne] at h
  split at h
  · cases h
  · split at h
    · injection h with h; subst h; exact .inl rfl
    · split at h
      · split at h
        · cases h
        · split at h
          · exact processFetch_mapShape h
          · split at h
            · injection h with h; subst h; exact .inr ⟨url, _, .inl rfl, rfl⟩
            · exact processFetch_mapShape h
      · exact processFetch_mapShape h

/-- Monotone run bookkeeping: the `strftime` counter, the dedup-hit count
and the timestamp-freshness log only grow, and mapped references stay
mapped. -/
def StM (st st1 : St) : Prop :=
  st.tick ≤ st1.tick ∧ st.dedupHits ≤ st1.dedupHits ∧
    (∃ t, st1.tsFreshLog = st.tsFreshLog ++ t) ∧
    (∀ u, (alookup u st.mapping).isSome → (alookup u st1.mapping).isSome)

theorem StM_refl (st : St) : StM st st :=
  ⟨le_refl _, le_refl _, ⟨[], by simp⟩, fun _ h => h⟩

theorem StM_trans {st1 st2 st3 : St} (h1 : StM st1 st2) (h2 : StM st2 st3) :
    StM st1 st3 := by
  obtain ⟨a1, b1, ⟨t1, c1⟩, d1⟩ := h1
  obtain ⟨a2, b2, ⟨t2, c2⟩, d2⟩ := h2
  exact ⟨le_trans a1 a2, le_trans b1 b2,
    ⟨t1 ++ t2, by rw [c2, c1, List.append_assoc]⟩, fun u h => d2 u (d1 u h)⟩

theorem finishSave_StM {env cfg st url content suggested st1}
    (h : finishSave env cfg st url content suggested = .ok st1) :
    StM st st1 := by
  simp only [finishSave] at h
  split at h <;> (injection h with h; subst h)
  · exact ⟨Nat.le_succ _, le_refl _, ⟨_, rfl⟩,
      fun u hu => alookup_setdefault_isSome hu⟩
  · exact ⟨le_refl _, le_refl _, ⟨[], by simp⟩,
      fun u hu => alookup_setdefault_isSome hu⟩

theorem processDownload_StM {env cfg st url st1}
    (h : processDownload env cfg st url = .ok st1) : StM st st1 := by
  simp only [processDownload] at h
  split at h
  · split at h
    · injection h with h; subst h; exact StM_refl _
    · cases h
  · split at h
    · split at h
      · injection h with h; subst h
        exact ⟨le_refl _, Nat.le_succ _, ⟨[], by simp⟩,
          fun u hu => alookup_setdefault_isSome hu⟩
      · have h2 := finishSave_StM h
        exact h2
    · have h2 := finishSave_StM h
      exact h2

theorem processFetch_StM {env cfg st url st1}
    (h : processFetch env cfg st url = .ok st1) : StM st st1 := by
  simp only [processFetch] at h
  split at h
  · have h2 := processDownload_StM h
    exact h2
  · split at h
    · have h2 := processDownload_StM h
      exact h2
    · injection h with h; subst h; exact StM_refl _

theorem processOne_StM {env cfg st url st1}
    (h : processOne env cfg st url = .ok st1) : StM st st1 := by
  simp only [processOne] at h
  split at h
  · cases h
  · split at h
    · injection h with h; subst h; exact StM_refl _
    · split at h
      · split at h
        · cases h
        · split at h
          · exact processFetch_StM h
          · split at h
            · injection h with h; subst h
              exact ⟨le_refl _, le_refl _, ⟨[], by simp⟩,
                fun u hu => alookup_setdefault_isSome hu⟩
            · exact processFetch_StM h
      · exact processFetch_StM h

theorem runList_StM {env cfg} :
    ∀ {l : List String} {st s : St}, runList env cfg l st = .ok s →
      StM st s := by
  intro l
  induction l with
  | nil =>
    intro st s h
    simp only [runList] at h
    injection h with h
    subst h
    exact StM_refl _
  | cons r t ih =>
    intro st s h
    simp only [runList] at h
    split at h
    · cases h
    · rename_i st1 hstep
      exact StM_trans (processOne_StM hstep) (ih h)

/-! ## Clock-independence lemmas (a step that does not call `strftime`
does not look at the clock) -/

theorem finishSave_clock {env : Env} {cfg st url content suggested st1}
    (c : Nat → String)
    (h : finishSave env cfg st url content suggested = .ok st1)
    (ht : st1.tick = st.tick) :
    finishSave { env with clock := c } cfg st url content suggested = .ok st1 := by
  simp only [finishSave, upd_md5hex] at h ⊢
  split at h
  · rename_i hcond
    injection h with h
    subst h
    simp at ht
  · rename_i hcond
    rw [if_neg hcond]
    exact h

theorem processDownload_clock {env : Env} {cfg st url st1} (c : Nat → String)
    (h : processDownload env cfg st url = .ok st1) (ht : st1.tick = st.tick) :
    processDownload { env with clock := c } cfg st url = .ok st1 := by
  simp only [processDownload, upd_fetch, upd_sha] at h ⊢
  cases hf : env.fetch url with
  | error e =>
    simp only [hf] at h ⊢
    exact h
  | ok p =>
    obtain ⟨content, suggested⟩ := p
    simp only [hf] at h ⊢
    by_cases hd : cfg.deduplication = true
    · simp only [hd, if_true] at h ⊢
      cases hl : alookup (env.sha content) st.hashIdx with
      | some existing => simp only [hl] at h ⊢; exact h
      | none =>
        simp only [hl] at h ⊢
        have h2 := finishSave_clock c h ht
        exact h2
    · rw [Bool.not_eq_true] at hd
      simp only [hd, Bool.false_eq_true, if_false] at h ⊢
      have h2 := finishSave_clock c h ht
      exact h2

theorem processFetch_clock {env : Env} {cfg st url st1} (c : Nat → String)
    (h : processFetch env cfg st url = .ok st1) (ht : st1.tick = st.tick) :
    processFetch { env with clock := c } cfg st url = .ok st1 := by
  simp only [processFetch, upd_isUrl] at h ⊢
  by_cases hu : env.isUrl url = true
  · simp only [hu, if_true] at h ⊢
    have h2 := processDownload_clock c h ht
    exact h2
  · rw [Bool.not_eq_true] at hu
    simp only [hu, Bool.false_eq_true, if_false] at h ⊢
    by_cases hb : cfg.baseUrl ≠ ""
    · rw [if_pos hb] at h ⊢
      have h2 := processDownload_clock c h ht
      exact h2
    · rw [if_neg hb] at h ⊢
      exact h

theorem processOne_clock {env : Env} {cfg st url st1} (c : Nat → String)
    (h : processOne env cfg st url = .ok st1) (ht : st1.tick = st.tick) :
    processOne { env with clock := c } cfg st url = .ok st1 := by
  simp only [processOne, upd_osErr] at h ⊢
  by_cases h1 : (alookup url st.mapping).isSome = true
  · rw [if_pos h1] at h
    cases h
  · rw [if_neg h1] at h ⊢
    by_cases h2 : url ∈ cfg.skipList
    · rw [if_pos h2] at h ⊢
      exact h
    · rw [if_neg h2] at h ⊢
      by_cases h3 : cfg.skipOnExisting = true
      · rw [if_pos h3] at h ⊢
        cases hr : rsplitLast url with
        | none => rw [hr] at h; cases h
        | some pf =>
          simp only [hr] at h ⊢
          by_cases h4 : env.osErr pf = true
          · rw [if_pos h4] at h ⊢
            have hf := processFetch_clock c h ht
            exact hf
          · rw [if_neg h4] at h ⊢
            by_cases h5 : (alookup pf st.disk).isSome = true
            · rw [if_pos h5] at h ⊢
              exact h
            · rw [if_neg h5] at h ⊢
              have hf := processFetch_clock c h ht
              exact hf
      · rw [if_neg h3] at h ⊢
        have hf := processFetch_clock c h ht
        exact hf

theorem runList_clock {env : Env} {cfg} (c : Nat → String) :
    ∀ {l : List String} {st s : St}, runList env cfg l st = .ok s →
      s.tick = st.tick → runList { env with clock := c } cfg l st = .ok s := by
  intro l
  induction l with
  | nil => intro st s h ht; exact h
  | cons r t ih =>
    intro st s h ht
    simp only [runList] at h ⊢
    split at h
    · cases h
    · rename_i st1 hstep
      have h1 : st.tick ≤ st1.tick := (processOne_StM hstep).1
      have h2 : st1.tick ≤ s.tick := (runList_StM h).1
      have ht1 : st1.tick = st.tick := by omega
      rw [processOne_clock c hstep ht1]
      exact ih h (by omega)

/-! ## The no-data-loss invariant -/

/-- Invariant relating a run state to the directory's initial contents
`d`: (1) every pre-existing file still holds its original content;
(2) every committed filename exists on disk; (3) committed filenames are
pairwise distinct. -/
def InvP (d : List (String × Content)) (m : List (String × String))
    (dk : List (String × Content)) : Prop :=
  (∀ f c, alookup f d = some c → alookup f dk = some c) ∧
    (∀ p ∈ m, (alookup p.2 dk).isSome) ∧ (m.map Prod.snd).Nodup

/-- Committing a mapping entry and writing to a filename that is not yet
on disk preserves the invariant. -/
theorem InvP_commit {d : List (String × Content)}
    {m : List (String × String)} {dk : List (String × Content)}
    {u f : String} {c : Content}
    (hInv : InvP d m dk) (hfr : alookup f dk = none) :
    InvP d (setdefault u f m) (aset f c dk) := by
  obtain ⟨h1, h2, h3⟩ := hInv
  refine ⟨?_, ?_, ?_⟩
  · intro g cg hg
    have hgk := h1 g cg hg
    by_cases hgf : g = f
    · subst hgf
      rw [hfr] at hgk
      cases hgk
    · rw [alookup_aset_ne c dk hgf]
      exact hgk
  · intro p hp
    rcases mem_setdefault hp with hm | he
    · by_cases hpf : p.2 = f
      · rw [hpf, alookup_aset_self]
        rfl
      · rw [alookup_aset_ne c dk hpf]
        exact h2 p hm
    · subst he
      rw [alookup_aset_self]
      rfl
  · unfold setdefault
    split
    · exact h3
    · rw [List.map_append]
      refine List.Nodup.append h3 (by simp) ?_
      intro v hv hmem
      simp only [List.map_cons, List.map_nil, List.mem_singleton] at hmem
      subst hmem
      obtain ⟨p, hp, hps⟩ := List.mem_map.mp hv
      have hs := h2 p hp
      rw [hps, hfr] at hs
      cases hs

theorem finishSave_inv {d env cfg st url content suggested st1}
    (h : finishSave env cfg st url content suggested = .ok st1)
    (hov : cfg.overwrite = false)
    (hInv : InvP d st.mapping st.disk)
    (hts : ∀ b ∈ st1.tsFreshLog, b = true) :
    InvP d st1.mapping st1.disk := by
  simp only [finishSave] at h
  split at h
  · rename_i hcond
    injection h with h
    subst h
    have hb := hts _ (List.mem_append_right _ (List.mem_singleton_self _))
    rw [Option.isNone_iff_eq_none] at hb
    exact InvP_commit hInv hb
  · rename_i hcond
    injection h with h
    subst h
    have hnone : alookup (uniquify env.md5hex st.mapping url suggested)
        st.disk = none := by
      rcases hx : alookup (uniquify env.md5hex st.mapping url suggested)
          st.disk with _ | w
      · rfl
      · exact absurd ⟨by simp [hx], hov⟩ hcond
    exact InvP_commit hInv hnone

theorem processDownload_inv {d env cfg st url st1}
    (h : processDownload env cfg st url = .ok st1)
    (hov : cfg.overwrite = false)
    (hInv : InvP d st.mapping st.disk)
    (hdh : st1.dedupHits = st.dedupHits)
    (hts : ∀ b ∈ st1.tsFreshLog, b = true) :
    InvP d st1.mapping st1.disk := by
  simp only [processDownload] at h
  split at h
  · split at h
    · injection h with h
      subst h
      exact hInv
    · cases h
  · split at h
    · split at h
      · injection h with h
        subst h
        simp at hdh
      · have h2 := finishSave_inv h hov hInv hts
        exact h2
    · have h2 := finishSave_inv h hov hInv hts
      exact h2

theorem processFetch_inv {d env cfg st url st1}
    (h : processFetch env cfg st url = .ok st1)
    (hov : cfg.overwrite = false)
    (hInv : InvP d st.mapping st.disk)
    (hdh : st1.dedupHits = st.dedupHits)
    (hts : ∀ b ∈ st1.tsFreshLog, b = true) :
    InvP d st1.mapping st1.disk := by
  simp only [processFetch] at h
  split at h
  · have h2 := processDownload_inv h hov hInv hdh hts
    exact h2
  · split at h
    · have h2 := processDownload_inv h hov hInv hdh hts
      exact h2
    · injection h with h
      subst h
      exact hInv

theorem processOne_inv {d env cfg st url st1}
    (h : processOne env cfg st url = .ok st1)
    (hso : cfg.skipOnExisting = false)
    (hov : cfg.overwrite = false)
    (hInv : InvP d st.mapping st.disk)
    (hdh : st1.dedupHits = st.dedupHits)
    (hts : ∀ b ∈ st1.tsFreshLog, b = true) :
    InvP d st1.mapping st1.disk := by
  simp only [processOne] at h
  split at h
  · cases h
  · split at h
    · injection h with h
      subst h
      exact hInv
    · split at h
      · rename_i hx
        rw [hso] at hx
        cases hx
      · have h2 := processFetch_inv h hov hInv hdh hts
        exact h2

theorem runList_inv {d : List (String × Content)} {env cfg}
    (hso : cfg.skipOnExisting = false) (hov : cfg.overwrite = false) :
    ∀ {l : List String} {st s : St},
      InvP d st.mapping st.disk → runList env cfg l st = .ok s →
      s.dedupHits = st.dedupHits → (∀ b ∈ s.tsFreshLog, b = true) →
      InvP d s.mapping s.disk := by
  intro l
  induction l with
  | nil =>
    intro st s hInv h hd hts
    simp only [runList] at h
    injection h with h
    subst h
    exact hInv
  | cons r t ih =>
    intro st s hInv h hd hts
    simp only [runList] at h
    split at h
    · cases h
    · rename_i st1 hstep
      have hm1 := processOne_StM hstep
      have hm2 := runList_StM h
      have hd1 : st1.dedupHits = st.dedupHits := by
        have ha := hm1.2.1
        have hb := hm2.2.1
        omega
      have hts1 : ∀ b ∈ st1.tsFreshLog, b = true := by
        obtain ⟨t2, ht2⟩ := hm2.2.2.1
        intro b hb
        exact hts b (ht2 ▸ List.mem_append_left _ hb)
      have hInv1 := processOne_inv hstep hso hov hInv hd1 hts1
      exact ih hInv1 h (by omega) hts

/-! ## Keys, uniqueness of keys, and run decomposition -/

/-- Any key present after one iteration was present before, or is the
reference itself, or its base-URL-repaired form. -/
theorem processOne_keys {env cfg st url st1}
    (h : processOne env cfg st url = .ok st1) (u : String)
    (hu : (alookup u st1.mapping).isSome) :
    (alookup u st.mapping).isSome ∨ u = url ∨
      u = cfg.baseUrl ++ "/" ++ url := by
  rcases processOne_mapShape h with hm | ⟨k, f, hk, hm⟩
  · rw [hm] at hu
    exact .inl hu
  · rw [hm] at hu
    rcases alookup_setdefault_cases hu with h1 | h1
    · exact .inl h1
    · rcases hk with hk | hk
      · exact .inr (.inl (h1.trans hk))
      · exact .inr (.inr (h1.trans hk))

theorem runList_keys {env cfg} :
    ∀ {l : List String} {st s : St}, runList env cfg l st = .ok s →
      ∀ u, (alookup u s.mapping).isSome →
        (alookup u st.mapping).isSome ∨
          ∃ r ∈ l, u = r ∨ u = cfg.baseUrl ++ "/" ++ r := by
  intro l
  induction l with
  | nil =>
    intro st s h u hu
    simp only [runList] at h
    injection h with h
    subst h
    exact .inl hu
  | cons r t ih =>
    intro st s h u hu
    simp only [runList] at h
    split at h
    · cases h
    · rename_i st1 hstep
      rcases ih h u hu with h1 | ⟨r2, hr2, hor⟩
      · rcases processOne_keys hstep u h1 with h2 | h2 | h2
        · exact .inl h2
        · exact .inr ⟨r, List.mem_cons_self r t, .inl h2⟩
        · exact .inr ⟨r, List.mem_cons_self r t, .inr h2⟩
      · exact .inr ⟨r2, List.mem_cons_of_mem r hr2, hor⟩

/-- Keys of the replacement mapping stay pairwise distinct
(`setdefault` never duplicates a key). -/
theorem runList_fst_nodup {env cfg} :
    ∀ {l : List String} {st s : St},
      (st.mapping.map Prod.fst).Nodup → runList env cfg l st = .ok s →
      (s.mapping.map Prod.fst).Nodup := by
  intro l
  induction l with
  | nil =>
    intro st s hn h
    simp only [runList] at h
    injection h with h
    subst h
    exact hn
  | cons r t ih =>
    intro st s hn h
    simp only [runList] at h
    split at h
    · cases h
    · rename_i st1 hstep
      refine ih ?_ h
      rcases processOne_mapShape hstep with hm | ⟨k, f, _, hm⟩
      · rw [hm]
        exact hn
      · rw [hm]
        exact map_fst_setdefault_nodup hn

/-- `runList` over a concatenation runs the prefix first. -/
theorem runList_append {env cfg} (l1 l2 : List String) :
    ∀ st : St, runList env cfg (l1 ++ l2) st =
      match runList env cfg l1 st with
      | .ok s => runList env cfg l2 s
      | .error e => .error e := by
  induction l1 with
  | nil => intro st; simp [runList]
  | cons r t ih =>
    intro st
    simp only [List.cons_append, runList]
    cases hp : processOne env cfg st r with
    | error e => rfl
    | ok st1 => exact ih st1

/-- The `assert` at the top of the loop: an already-mapped reference is
fatal before anything else is consulted. -/
theorem processOne_mapped {env cfg st url}
    (h : (alookup url st.mapping).isSome) :
    processOne env cfg st url = .error .assertionError := by
  simp only [processOne, h, if_true]

/-! ## Log lemmas (which URLs get classified and fetched) -/

theorem finishSave_logs {env cfg st url content suggested st1}
    (h : finishSave env cfg st url content suggested = .ok st1) :
    st1.classifyLog = st.classifyLog ∧ st1.fetchLog = st.fetchLog := by
  simp only [finishSave] at h
  split at h <;> (injection h with h; subst h; exact ⟨rfl, rfl⟩)

theorem processDownload_logs {env cfg st url st1}
    (h : processDownload env cfg st url = .ok st1) :
    st1.classifyLog = st.classifyLog ∧
      st1.fetchLog = st.fetchLog ++ [url] := by
  simp only [processDownload] at h
  split at h
  · split at h
    · injection h with h
      subst h
      exact ⟨rfl, rfl⟩
    · cases h
  · split at h
    · split at h
      · injection h with h
        subst h
        exact ⟨rfl, rfl⟩
      · have h2 := finishSave_logs h
        exact h2
    · have h2 := finishSave_logs h
      exact h2

theorem finishSave_isOk {env cfg st url content suggested} :
    ∃ st1, finishSave env cfg st url content suggested = .ok st1 := by
  simp only [finishSave]
  split
  · exact ⟨_, rfl⟩
  · exact ⟨_, rfl⟩

theorem processDownload_isOk {env cfg st url content suggested}
    (hf : env.fetch url = .ok (content, suggested)) :
    ∃ st1, processDownload env cfg st url = .ok st1 := by
  simp only [processDownload, hf]
  split
  · split
    · exact ⟨_, rfl⟩
    · exact finishSave_isOk
  · exact finishSave_isOk

/-! ## Concrete scenario environments -/

/-- Default configuration: all optional features off. -/
def cfgBase : Config :=
  { dirname := "images", baseUrl := "", skipList := [],
    skipAllErrors := false, deduplication := false,
    skipOnExisting := false, overwrite := false }

/-- Two URLs whose fetches suggest the same filename with different
contents; constant one-second clock. -/
def envTs : Env :=
  { isUrl := fun _ => true,
    fetch := fun u =>
      if u = "u1" then .ok ([1], "a.png")
      else if u = "u2" then .ok ([2], "a.png")
      else .error (),
    sha := id, md5hex := fun _ => "H", clock := fun _ => "T",
    osErr := fun _ => false }

/-- Same oracles as `envTs`, different wall clock. -/
def envTs2 : Env := { envTs with clock := fun _ => "T2" }

/-- Same oracles as `envTs`, but each `strftime` call yields a fresh
timestamp. -/
def envTsFresh : Env := { envTs with clock := fun n => "T" ++ toString n }

/-- Dedup scenario: `u2` and `u3` fetch byte-identical content `[2]`;
`u1` and `u2` suggest the same filename. -/
def envDedup : Env :=
  { isUrl := fun _ => true,
    fetch := fun u =>
      if u = "u1" then .ok ([1], "a.png")
      else if u = "u2" then .ok ([2], "a.png")
      else if u = "u3" then .ok ([2], "x.png")
      else .error (),
    sha := id, md5hex := fun _ => "H", clock := fun _ => "T",
    osErr := fun _ => false }

def cfgDedup : Config := { cfgBase with deduplication := true }

/-- Probe scenario for skip-on-existing mode: the probe for `"a.png"`
raises `OSError`; the fetch of `"x/a.png"` succeeds. -/
def envProbe : Env :=
  { isUrl := fun _ => true,
    fetch := fun u => if u = "x/a.png" then .ok ([3], "f.png") else .error (),
    sha := id, md5hex := fun _ => "H", clock := fun _ => "T",
    osErr := fun f => f == "a.png" }

def cfgProbe : Config := { cfgBase with skipOnExisting := true }

/-- Spec §8 scenario: a valid URL, an unclassifiable bare filename, and a
duplicate of the first reference. -/
def envAssert : Env :=
  { isUrl := fun u => u != "b.png",
    fetch := fun u =>
      if u = "https://x.test/a.png" then .ok ([1], "a.png") else .error (),
    sha := id, md5hex := fun _ => "H", clock := fun _ => "T",
    osErr := fun _ => false }

/-- Three valid URLs of which the middle one's fetch raises. -/
def envTimeout : Env :=
  { isUrl := fun _ => true,
    fetch := fun u =>
      if u = "https://x.test/1.png" then .ok ([1], "f1.png")
      else if u = "https://x.test/3.png" then .ok ([3], "f3.png")
      else .error (),
    sha := id, md5hex := fun _ => "H", clock := fun _ => "T",
    osErr := fun _ => false }

def cfgSkipErr : Config := { cfgBase with skipAllErrors := true }

/-- Base-URL repair scenario: `"img/a.png"` is not a valid URL; the
repaired absolute URL fetches fine. -/
def envRepair : Env :=
  { isUrl := fun u => u != "img/a.png",
    fetch := fun u =>
      if u = "https://x.test/doc/img/a.png" then .ok ([1], "a.png")
      else .error (),
    sha := id, md5hex := fun _ => "H", clock := fun _ => "T",
    osErr := fun _ => false }

def cfgRepair : Config := { cfgBase with baseUrl := "https://x.test/doc" }

/-! ## Claims -/

/-- C3: within one `download_images` call, reaching a reference that is
already a key of the accumulated replacement mapping fails fatally with
the `assert` (contract violation), for every environment and every
configuration — in particular regardless of `skip_all_errors`. -/
theorem C3_duplicate_reference_fatal (env : Env) (cfg : Config)
    (d : List (String × Content)) (l1 : List String) (r : String)
    (l2 : List String) (s : St)
    (h1 : runList env cfg l1 (initSt d) = .ok s)
    (h2 : (alookup r s.mapping).isSome) :
    runList env cfg (l1 ++ r :: l2) (initSt d) = .error .assertionError := by
  rw [runList_append, h1]
  simp only [runList, processOne_mapped h2]

/-- Witness for C3: the spec §8 scenario
`["https://x.test/a.png", "b.png", "https://x.test/a.png"]` — the first
reference is fetched and mapped, `"b.png"` is skipped (no base URL), and
the duplicate third reference aborts the run with the contract
violation. -/
theorem C3_duplicate_reference_fatal_witness :
    (alookup "https://x.test/a.png"
      (runOf envAssert cfgBase [] ["https://x.test/a.png", "b.png"]).mapping).isSome ∧
    runList envAssert cfgBase
      (["https://x.test/a.png", "b.png"] ++ ["https://x.test/a.png"])
      (initSt []) = .error .assertionError :=
  ⟨by decide,
   C3_duplicate_reference_fatal envAssert cfgBase [] _ _ _
     (runOf envAssert cfgBase [] ["https://x.test/a.png", "b.png"]) rfl
     (by decide)⟩

/-- C5: evaluation of the code at the failing input.  With
`skip_on_existing_filename` enabled, a reference containing no `'/'`
makes `img_url.rsplit('/', 1)[1]` raise `IndexError` — the probe is NOT
raise-free as the claim states.  By contrast an `OSError` from the
`is_file` probe (here on `"x/a.png"`, whose candidate `"a.png"` exists on
disk but whose probe raises) is swallowed and the reference falls
through to the normal fetch path. -/
theorem C5_probe_indexerror :
    runList envProbe cfgProbe ["a.png"] (initSt [("a.png", [0])]) =
      .error .indexError ∧
    runList envProbe cfgProbe ["x/a.png"] (initSt [("a.png", [0])]) =
      .ok (runOf envProbe cfgProbe [("a.png", [0])] ["x/a.png"]) ∧
    (runOf envProbe cfgProbe [("a.png", [0])] ["x/a.png"]).fetchLog =
      ["x/a.png"] ∧
    (runOf envProbe cfgProbe [("a.png", [0])] ["x/a.png"]).mapping =
      [("x/a.png", "f.png")] :=
  ⟨rfl, rfl, rfl, rfl⟩

/-- C2: evaluation of the code at the failing input.  With deduplication
enabled, `u2` and `u3` fetch byte-identical content `[2]`, and indeed
only one write happens per distinct content (`writeLog`), but `u3` is
mapped to `"a.png"` — the filename recorded in the dedup index BEFORE
collision disambiguation — while `u2` was actually saved as
`"a_H.png"`; the two byte-identical references get different local
paths, and `u3`'s path holds the different content `[1]`. -/
theorem C2_dedup_stale_filename :
    runList envDedup cfgDedup ["u1", "u2", "u3"] (initSt []) =
      .ok (runOf envDedup cfgDedup [] ["u1", "u2", "u3"]) ∧
    envDedup.fetch "u2" = .ok ([2], "a.png") ∧
    envDedup.fetch "u3" = .ok ([2], "x.png") ∧
    alookup "u2" (runOf envDedup cfgDedup [] ["u1", "u2", "u3"]).mapping =
      some "a_H.png" ∧
    alookup "u3" (runOf envDedup cfgDedup [] ["u1", "u2", "u3"]).mapping =
      some "a.png" ∧
    ("a_H.png" : String) ≠ "a.png" ∧
    alookup "a.png" (runOf envDedup cfgDedup [] ["u1", "u2", "u3"]).disk =
      some [1] ∧
    (runOf envDedup cfgDedup [] ["u1", "u2", "u3"]).writeLog =
      [("a.png", [1]), ("a_H.png", [2])] :=
  ⟨rfl, rfl, rfl, rfl, rfl, by decide, rfl, rfl⟩

/-- C1 counterexample: the claim as stated is false.  Part 1: with
`overwrite` disabled and the directory already containing `"a.png"` and
`"a_T.png"` (content `[9]`), the single reference `u1` (distinct content
`[1]`) is timestamp-disambiguated to `"a_T.png"` and OVERWRITES the
pre-existing distinct-content file.  Part 2: two references with
distinct contents whose on-disk collisions happen in the same
`strftime` second are both assigned `"a_T.png"` — the N assigned paths
are not pairwise distinct and the second write clobbers the first. -/
theorem C1_counterexample :
    cfgBase.overwrite = false ∧
    runList envTs cfgBase ["u1"] (initSt [("a.png", [0]), ("a_T.png", [9])]) =
      .ok (runOf envTs cfgBase [("a.png", [0]), ("a_T.png", [9])] ["u1"]) ∧
    alookup "a_T.png" [("a.png", ([0] : Content)), ("a_T.png", [9])] =
      some [9] ∧
    alookup "a_T.png"
      (runOf envTs cfgBase [("a.png", [0]), ("a_T.png", [9])] ["u1"]).disk =
      some [1] ∧
    runList envTs cfgBase ["u1", "u2"] (initSt [("a.png", [0])]) =
      .ok (runOf envTs cfgBase [("a.png", [0])] ["u1", "u2"]) ∧
    alookup "u1" (runOf envTs cfgBase [("a.png", [0])] ["u1", "u2"]).mapping =
      some "a_T.png" ∧
    alookup "u2" (runOf envTs cfgBase [("a.png", [0])] ["u1", "u2"]).mapping =
      some "a_T.png" ∧
    envTs.fetch "u1" = .ok ([1], "a.png") ∧
    envTs.fetch "u2" = .ok ([2], "a.png") :=
  ⟨rfl, rfl, rfl, rfl, rfl, rfl, rfl, rfl, rfl⟩

/-- C1 (amended): in a run with `skip_on_existing_filename` and
`overwrite` disabled, with no dedup-index hit (automatic when the
fetched contents are pairwise distinct), and in which every
timestamp-disambiguated filename was fresh (absent from the directory at
the moment it was generated), the assigned local paths are pairwise
distinct and no pre-existing file of the target directory is
overwritten: every file initially on disk still holds its initial
content when the run ends. -/
theorem C1_amended_uniqueness (env : Env) (cfg : Config)
    (d : List (String × Content)) (images : List String) (s : St)
    (hso : cfg.skipOnExisting = false) (hov : cfg.overwrite = false)
    (h : runList env cfg images (initSt d) = .ok s)
    (hdh : s.dedupHits = 0)
    (hts : ∀ b ∈ s.tsFreshLog, b = true) :
    (s.mapping.map Prod.snd).Nodup ∧
      ∀ f c, alookup f d = some c → alookup f s.disk = some c := by
  have hInv : InvP d (initSt d).mapping (initSt d).disk := by
    refine ⟨fun f c hc => hc, ?_, ?_⟩
    · intro p hp
      simp [initSt] at hp
    · simp [initSt]
  have h2 := runList_inv hso hov hInv h hdh hts
  exact ⟨h2.2.2, h2.1⟩

/-- Witness for C1 (amended): a populated directory (`"a.png"`) and two
same-suggested-name references, with a clock that yields a fresh
timestamp on every call: the two assigned paths `"a_T0.png"`,
`"a_T1.png"` are distinct and the pre-existing file is untouched. -/
theorem C1_amended_uniqueness_witness :
    ((runOf envTsFresh cfgBase [("a.png", [0])] ["u1", "u2"]).mapping.map
      Prod.snd).Nodup ∧
    alookup "a.png"
      (runOf envTsFresh cfgBase [("a.png", [0])] ["u1", "u2"]).disk =
      some [0] := by
  have h := C1_amended_uniqueness envTsFresh cfgBase [("a.png", [0])]
    ["u1", "u2"] (runOf envTsFresh cfgBase [("a.png", [0])] ["u1", "u2"])
    rfl rfl rfl rfl (by decide)
  exact ⟨h.1, h.2 "a.png" [0] rfl⟩

/-- C6 counterexample: two runs over the same reference list, the same
populated directory, the same skip list and the same configuration
differ only in the wall clock (`envTs2` equals `envTs` in every oracle
except `clock`), yet return different mappings: the timestamp fallback
of line 100 puts the current `strftime` value into the assigned
filename, so the mapping is NOT independent of wall-clock time. -/
theorem C6_counterexample :
    envTs2.isUrl = envTs.isUrl ∧ envTs2.fetch = envTs.fetch ∧
    envTs2.sha = envTs.sha ∧ envTs2.md5hex = envTs.md5hex ∧
    envTs2.osErr = envTs.osErr ∧
    download_images envTs cfgBase [("a.png", [0])] ["u1"] =
      .ok [("u1", "a_T.png")] ∧
    download_images envTs2 cfgBase [("a.png", [0])] ["u1"] =
      .ok [("u1", "a_T2.png")] ∧
    ([("u1", "a_T.png")] : List (String × String)) ≠ [("u1", "a_T2.png")] :=
  ⟨rfl, rfl, rfl, rfl, rfl, rfl, rfl, by decide⟩

/-- C6 (amended): the mapping is a pure function of the input sequence,
the filesystem/skip-list state and the sequence of timestamps drawn
during the run; it is wall-clock independent exactly on runs that never
take the on-disk-collision timestamp branch.  Formally: if a run from
the initial state finishes with the `strftime` counter still at zero,
then running the same inputs under any other clock (all other oracles
equal) yields the identical final state and the identical returned
mapping. -/
theorem C6_amended_clock_independence (e1 e2 : Env) (cfg : Config)
    (d : List (String × Content)) (images : List String) (s : St)
    (h1 : e1.isUrl = e2.isUrl) (h2 : e1.fetch = e2.fetch)
    (h3 : e1.sha = e2.sha) (h4 : e1.md5hex = e2.md5hex)
    (h5 : e1.osErr = e2.osErr)
    (h : runList e1 cfg images (initSt d) = .ok s) (ht : s.tick = 0) :
    runList e2 cfg images (initSt d) = .ok s ∧
      download_images e2 cfg d images = download_images e1 cfg d images := by
  have he : e2 = { e1 with clock := e2.clock } := by
    cases e1
    cases e2
    simp_all
  have hr : runList e2 cfg images (initSt d) = .ok s := by
    rw [he]
    exact runList_clock e2.clock h ht
  refine ⟨hr, ?_⟩
  simp only [download_images, hr, h]

/-- Witness for C6 (amended): a one-reference run against an empty
directory never consults the clock, so the run under the constant clock
`"T"` and the run under the constant clock `"T2"` agree. -/
theorem C6_amended_clock_independence_witness :
    runList envTs2 cfgBase ["u1"] (initSt []) =
      .ok (runOf envTs cfgBase [] ["u1"]) ∧
    download_images envTs2 cfgBase [] ["u1"] =
      download_images envTs cfgBase [] ["u1"] :=
  C6_amended_clock_independence envTs envTs2 cfgBase [] ["u1"]
    (runOf envTs cfgBase [] ["u1"]) rfl rfl rfl rfl rfl rfl rfl

/-- C7: when some already-committed entry uses the same document path
for a different reference, `_get_unique_imge_filename` renames the
candidate to `stem + "_" + md5(reference).hexdigest() + suffix` — the
disambiguating suffix is derived from a hash of the (colliding, later)
reference string, appended to the stem with the extension preserved,
and the result is a pure function of the mapping, the reference and the
candidate (no counter, no clock, no filesystem state), hence identical
across repeated runs with the same inputs. -/
theorem C7_collision_hash_suffix (md5 : String → String)
    (m : List (String × String)) (url f : String)
    (h : ∃ p ∈ m, p.2 = f ∧ p.1 ≠ url) :
    uniquify md5 m url f = nameStem f ++ "_" ++ md5 url ++ nameSuffix f := by
  unfold uniquify
  rw [if_pos]
  obtain ⟨p, hp, h2, h3⟩ := h
  exact List.any_eq_true.mpr ⟨p, hp, by simp [h2, h3]⟩

/-- Witness for C7: `"a.png"` collides with the entry committed for
`u1`; the later reference `u2` (hash `"H"`) gets `"a_H.png"`. -/
theorem C7_collision_hash_suffix_witness :
    uniquify (fun _ => "H") [("u1", "a.png")] "u2" "a.png" =
      nameStem "a.png" ++ "_" ++ "H" ++ nameSuffix "a.png" ∧
    nameStem "a.png" ++ "_" ++ "H" ++ nameSuffix "a.png" = "a_H.png" :=
  ⟨C7_collision_hash_suffix (fun _ => "H") [("u1", "a.png")] "u2" "a.png"
     ⟨("u1", "a.png"), by decide, rfl, by decide⟩,
   by decide⟩

/-- C8 counterexample: the single input reference `"img/a.png"`
undergoes base-URL repair and the mapping keys it by the REPAIRED
absolute URL, not by its original form: the original reference is not a
key of the returned mapping at all, and the only key is not an element
of the input list. -/
theorem C8_counterexample :
    runList envRepair cfgRepair ["img/a.png"] (initSt []) =
      .ok (runOf envRepair cfgRepair [] ["img/a.png"]) ∧
    (runOf envRepair cfgRepair [] ["img/a.png"]).mapping =
      [("https://x.test/doc/img/a.png", "a.png")] ∧
    alookup "img/a.png" (runOf envRepair cfgRepair [] ["img/a.png"]).mapping =
      none ∧
    "https://x.test/doc/img/a.png" ∉ ["img/a.png"] :=
  ⟨rfl, rfl, rfl, by decide⟩

/-- C8 (amended): every key of the mapping returned by a successful run
is either an input reference exactly as it appeared, or the base-URL
repaired form `base ++ "/" ++ r` of an input reference `r`; references
that underwent repair are keyed by the repaired URL. -/
theorem C8_amended_keys (env : Env) (cfg : Config)
    (d : List (String × Content)) (images : List String) (s : St)
    (u : String)
    (h : runList env cfg images (initSt d) = .ok s)
    (hu : (alookup u s.mapping).isSome) :
    u ∈ images ∨ ∃ r ∈ images, u = cfg.baseUrl ++ "/" ++ r := by
  rcases runList_keys h u hu with h1 | ⟨r, hr, hor⟩
  · simp [initSt, alookup] at h1
  · rcases hor with h2 | h2
    · exact .inl (h2 ▸ hr)
    · exact .inr ⟨r, hr, h2⟩

/-- Witness for C8 (amended): in the repair scenario the only key is the
repaired form of the input reference `"img/a.png"`. -/
theorem C8_amended_keys_witness :
    "https://x.test/doc/img/a.png" ∈ ["img/a.png"] ∨
      ∃ r ∈ ["img/a.png"],
        "https://x.test/doc/img/a.png" = cfgRepair.baseUrl ++ "/" ++ r :=
  C8_amended_keys envRepair cfgRepair [] ["img/a.png"]
    (runOf envRepair cfgRepair [] ["img/a.png"])
    "https://x.test/doc/img/a.png" rfl (by decide)

/-- C9 counterexample: the claim says validity classification is
"retried before fetching" after base-URL repair.  In the repair scenario
the repaired URL IS fetched, but the classifier log contains only the
original reference — the repaired string is never re-classified. -/
theorem C9_counterexample :
    runList envRepair cfgRepair ["img/a.png"] (initSt []) =
      .ok (runOf envRepair cfgRepair [] ["img/a.png"]) ∧
    (runOf envRepair cfgRepair [] ["img/a.png"]).fetchLog =
      ["https://x.test/doc/img/a.png"] ∧
    (runOf envRepair cfgRepair [] ["img/a.png"]).classifyLog =
      ["img/a.png"] ∧
    "https://x.test/doc/img/a.png" ∉
      (runOf envRepair cfgRepair [] ["img/a.png"]).classifyLog :=
  ⟨rfl, rfl, rfl, by decide⟩

/-- C9 (amended): for a reference that reaches classification and is not
a valid URL: if a base URL is configured, the reference is rewritten to
`base ++ "/" ++ reference` and fetched directly from that repaired URL
with NO re-classification (the classifier log gains only the original
reference, the fetch log gains the repaired URL); if no base URL is
configured, the reference is skipped with a diagnostic — no fetch, no
mapping entry, the state is unchanged except for the classifier log. -/
theorem C9_base_url_repair (env : Env) (cfg : Config) (st : St)
    (url : String) (content : Content) (suggested : String)
    (hm : (alookup url st.mapping).isSome = false)
    (hs : url ∉ cfg.skipList)
    (hso : cfg.skipOnExisting = false)
    (hu : env.isUrl url = false) :
    (cfg.baseUrl ≠ "" →
      env.fetch (cfg.baseUrl ++ "/" ++ url) = .ok (content, suggested) →
      ∃ st1, processOne env cfg st url = .ok st1 ∧
        st1.classifyLog = st.classifyLog ++ [url] ∧
        st1.fetchLog = st.fetchLog ++ [cfg.baseUrl ++ "/" ++ url]) ∧
    (cfg.baseUrl = "" →
      processOne env cfg st url =
        .ok { st with classifyLog := st.classifyLog ++ [url] }) := by
  have hred : processOne env cfg st url = processFetch env cfg st url := by
    unfold processOne
    rw [if_neg (by simp [hm]), if_neg hs, if_neg (by simp [hso])]
  constructor
  · intro hb hf
    have hred2 : processFetch env cfg st url =
        processDownload env cfg
          { st with classifyLog := st.classifyLog ++ [url] }
          (cfg.baseUrl ++ "/" ++ url) := by
      simp only [processFetch]
      rw [if_neg (by simp [hu]), if_pos hb]
    obtain ⟨st1, h1⟩ := @processDownload_isOk env cfg
      { st with classifyLog := st.classifyLog ++ [url] }
      (cfg.baseUrl ++ "/" ++ url) content suggested hf
    have hlogs := processDownload_logs h1
    exact ⟨st1, by rw [hred, hred2]; exact h1, hlogs.1, hlogs.2⟩
  · intro hb
    rw [hred]
    simp only [processFetch, hb]
    rw [if_neg (by simp [hu]), if_neg (fun hc => hc rfl)]

/-- Witness for C9 (amended): `"img/a.png"` with base URL
`"https://x.test/doc"` is fetched from the joined URL without
re-classification; with no base URL (`cfgBase`) it is skipped, leaving
only the classifier-log entry. -/
theorem C9_base_url_repair_witness :
    (∃ st1, processOne envRepair cfgRepair (initSt []) "img/a.png" =
        .ok st1 ∧
      st1.classifyLog = ["img/a.png"] ∧
      st1.fetchLog = ["https://x.test/doc/img/a.png"]) ∧
    processOne envRepair cfgBase (initSt []) "img/a.png" =
      .ok { (initSt []) with classifyLog := ["img/a.png"] } :=
  ⟨(C9_base_url_repair envRepair cfgRepair (initSt []) "img/a.png"
      [1] "a.png" rfl (by decide) rfl rfl).1 (by decide) rfl,
   (C9_base_url_repair envRepair cfgBase (initSt []) "img/a.png"
      [1] "a.png" rfl (by decide) rfl rfl).2 rfl⟩

/-- C4: fetch-failure policy.  For a reference that reaches the fetch
and whose fetch raises: with `skip_all_errors` enabled the step
succeeds, leaving the mapping, the directory and the write log
untouched (only the diagnostic logs grow) — the reference stays
unmapped and processing continues; with `skip_all_errors` disabled the
whole run aborts with the fetch error and no mapping is returned.
Moreover, in the concrete three-reference scenario with one failing
fetch and `skip_all_errors` on, the returned mapping has exactly the
two other entries. -/
theorem C4_fetch_failure_policy (env : Env) (cfg : Config) (st : St)
    (url : String)
    (hm : (alookup url st.mapping).isSome = false)
    (hs : url ∉ cfg.skipList)
    (hso : cfg.skipOnExisting = false)
    (hu : env.isUrl url = true)
    (hf : env.fetch url = .error ()) :
    (cfg.skipAllErrors = true →
      processOne env cfg st url =
        .ok { st with classifyLog := st.classifyLog ++ [url],
                      fetchLog := st.fetchLog ++ [url] }) ∧
    (cfg.skipAllErrors = false →
      ∀ l2 : List String,
        runList env cfg (url :: l2) st = .error .fetchError) ∧
    download_images envTimeout cfgSkipErr []
      ["https://x.test/1.png", "https://x.test/2.png",
       "https://x.test/3.png"] =
      .ok [("https://x.test/3.png", "f3.png"),
           ("https://x.test/1.png", "f1.png")] := by
  have hred : processOne env cfg st url =
      processDownload env cfg
        { st with classifyLog := st.classifyLog ++ [url] } url := by
    unfold processOne
    rw [if_neg (by simp [hm]), if_neg hs, if_neg (by simp [hso])]
    simp only [processFetch]
    rw [if_pos hu]
  refine ⟨?_, ?_, rfl⟩
  · intro hsk
    rw [hred]
    simp only [processDownload, hf]
    rw [if_pos hsk]
  · intro hsk l2
    have hp : processOne env cfg st url = .error .fetchError := by
      rw [hred]
      simp only [processDownload, hf]
      rw [if_neg (by simp [hsk])]
    simp only [runList, hp]

/-- Witness for C4: the failing middle reference of the timeout scenario
is left unmapped and processing continues under `skip_all_errors`; under
the default configuration the same failing fetch aborts the run. -/
theorem C4_fetch_failure_policy_witness :
    processOne envTimeout cfgSkipErr (initSt []) "https://x.test/2.png" =
      .ok { (initSt []) with classifyLog := ["https://x.test/2.png"],
                             fetchLog := ["https://x.test/2.png"] } ∧
    runList envTimeout cfgBase ["https://x.test/2.png"] (initSt []) =
      .error .fetchError :=
  ⟨(C4_fetch_failure_policy envTimeout cfgSkipErr (initSt [])
      "https://x.test/2.png" rfl (by decide) rfl rfl rfl).1 rfl,
   (C4_fetch_failure_policy envTimeout cfgBase (initSt [])
      "https://x.test/2.png" rfl (by decide) rfl rfl rfl).2.1 rfl []⟩

/-- C10: line 108 — the value returned by `download_images` is
`OrderedDict(sorted(replacement_mapping.items(), reverse=True))`: a
permutation of the accumulated entries that iterates in strictly
descending (reverse lexicographic, by code point) order of the
reference keys. -/
theorem C10_sorted_output (env : Env) (cfg : Config)
    (d : List (String × Content)) (images : List String) (s : St)
    (h : runList env cfg images (initSt d) = .ok s) :
    download_images env cfg d images = .ok (sortDesc s.mapping) ∧
    (sortDesc s.mapping).Perm s.mapping ∧
    (sortDesc s.mapping).Pairwise (fun a b => b.1 < a.1) := by
  have hperm : (sortDesc s.mapping).Perm s.mapping :=
    List.perm_insertionSort _ _
  refine ⟨by simp only [download_images, h]; rfl, hperm, ?_⟩
  have hsorted : List.Sorted pairDescBefore (sortDesc s.mapping) :=
    List.sorted_insertionSort _ _
  have hnodup : (s.mapping.map Prod.fst).Nodup :=
    runList_fst_nodup (by simp [initSt]) h
  have hnodup2 : ((sortDesc s.mapping).map Prod.fst).Nodup :=
    ((hperm.map Prod.fst).nodup_iff).mpr hnodup
  have hne : (sortDesc s.mapping).Pairwise (fun a b => a.1 ≠ b.1) :=
    List.pairwise_map.mp hnodup2
  have hand := hsorted.and hne
  exact hand.imp (fun hab => by
    obtain ⟨hle, hne2⟩ := hab
    rw [pairDescBefore_iff] at hle
    rcases (Prod.Lex.le_iff _ _).mp hle with hlt | ⟨heq, _⟩
    · exact hlt
    · exact absurd heq.symm hne2)

/-- Witness for C10: the two-entry timeout scenario, whose returned list
is the accumulated mapping sorted with the larger key first. -/
theorem C10_sorted_output_witness :
    download_images envTimeout cfgSkipErr []
      ["https://x.test/1.png", "https://x.test/2.png",
       "https://x.test/3.png"] =
      .ok (sortDesc (runOf envTimeout cfgSkipErr []
        ["https://x.test/1.png", "https://x.test/2.png",
         "https://x.test/3.png"]).mapping) ∧
    (sortDesc (runOf envTimeout cfgSkipErr []
      ["https://x.test/1.png", "https://x.test/2.png",
       "https://x.test/3.png"]).mapping).Pairwise
      (fun a b => b.1 < a.1) := by
  have h := C10_sorted_output envTimeout cfgSkipErr []
    ["https://x.test/1.png", "https://x.test/2.png", "https://x.test/3.png"]
    (runOf envTimeout cfgSkipErr []
      ["https://x.test/1.png", "https://x.test/2.png",
       "https://x.test/3.png"]) rfl
  exact ⟨h.1, h.2.2⟩

end ImageDownloader
